import Mathlib

/-!
# Verification of the watchtower commit-cache module

A shallow embedding of `src/watchtower/commits_.py` and proofs of the
specified properties of its three public operations: `load_commits`
(the cache reader), `update_commits` (the incremental updater) and
`find_word_in_string` (the query-word matcher).

Modelling conventions:
* A Python value is `JVal`; a record (one row of the pandas DataFrame) is
  an ordered association list of fields, `Record`.  A date-time has two
  distinct runtime representations, kept apart because `drop_duplicates`
  compares them as unequal Python values: a serialized date-time string is
  `JVal.datestr n` and a parsed tz-aware Timestamp is `JVal.time n`, each
  identified by the UTC instant `n` it denotes; the fixed serialization
  format (`DATETIME_FORMAT` from `_config`, not part of the sources) is
  modelled as the lossless storage of that instant.
* The filesystem is a map from paths to optional file contents; a file
  either holds a well-formed list of records or is `malformed`.
* Python exceptions are modelled with `Except ExcKind`; `ExcKind`
  distinguishes `ValueError` (raised by `pandas.read_json` on a missing or
  malformed file, by `pd.to_datetime` on unparseable values, and by the
  explicit `raise` on an empty frame) from `KeyError` (raised by a column
  lookup such as `commits['date']` when the column is absent).
* `os.makedirs` failures are modelled by an `Option OSErr` oracle passed
  to `update_commits`; the source wraps the call in
  `try: ... except OSError: pass`.
-/

/-- A Python value as it appears in a record field.  Date-times occur in
two distinct runtime representations which the source never converts into
one another inside a single update run:
* `datestr n` is a serialized date-time **string** (the form the GitHub
  API returns in `created_at` and in `commit.author.date`), identified by
  the UTC instant `n` it denotes — the API emits one canonical format, so
  two such strings are equal exactly when their instants are;
* `time n` is a parsed (tz-aware) pandas **Timestamp** with UTC instant
  `n`, the representation `load_commits` produces for the `date` column.
Equality of `JVal` models Python value equality: a string is never equal
to a Timestamp, even when both denote the same instant — which is what
`drop_duplicates` compares by. -/
inductive JVal where
  | str : String → JVal
  | time : Int → JVal
  | datestr : Int → JVal
  | null : JVal
  | obj : List (String × JVal) → JVal

mutual

/-- Decidable equality for `JVal` (the automatic deriver does not handle
the nested `List` occurrence). -/
def JVal.decEq : (a b : JVal) → Decidable (a = b)
  | .str a, .str b =>
    match String.decEq a b with
    | isTrue h => isTrue (by rw [h])
    | isFalse h => isFalse (fun he => h (JVal.str.inj he))
  | .str _, .time _ => isFalse (fun h => JVal.noConfusion h)
  | .str _, .datestr _ => isFalse (fun h => JVal.noConfusion h)
  | .str _, .null => isFalse (fun h => JVal.noConfusion h)
  | .str _, .obj _ => isFalse (fun h => JVal.noConfusion h)
  | .time _, .str _ => isFalse (fun h => JVal.noConfusion h)
  | .time a, .time b =>
    match Int.decEq a b with
    | isTrue h => isTrue (by rw [h])
    | isFalse h => isFalse (fun he => h (JVal.time.inj he))
  | .time _, .datestr _ => isFalse (fun h => JVal.noConfusion h)
  | .time _, .null => isFalse (fun h => JVal.noConfusion h)
  | .time _, .obj _ => isFalse (fun h => JVal.noConfusion h)
  | .datestr _, .str _ => isFalse (fun h => JVal.noConfusion h)
  | .datestr _, .time _ => isFalse (fun h => JVal.noConfusion h)
  | .datestr a, .datestr b =>
    match Int.decEq a b with
    | isTrue h => isTrue (by rw [h])
    | isFalse h => isFalse (fun he => h (JVal.datestr.inj he))
  | .datestr _, .null => isFalse (fun h => JVal.noConfusion h)
  | .datestr _, .obj _ => isFalse (fun h => JVal.noConfusion h)
  | .null, .str _ => isFalse (fun h => JVal.noConfusion h)
  | .null, .time _ => isFalse (fun h => JVal.noConfusion h)
  | .null, .datestr _ => isFalse (fun h => JVal.noConfusion h)
  | .null, .null => isTrue rfl
  | .null, .obj _ => isFalse (fun h => JVal.noConfusion h)
  | .obj _, .str _ => isFalse (fun h => JVal.noConfusion h)
  | .obj _, .time _ => isFalse (fun h => JVal.noConfusion h)
  | .obj _, .datestr _ => isFalse (fun h => JVal.noConfusion h)
  | .obj _, .null => isFalse (fun h => JVal.noConfusion h)
  | .obj a, .obj b =>
    match JVal.decEqFields a b with
    | isTrue h => isTrue (by rw [h])
    | isFalse h => isFalse (fun he => h (JVal.obj.inj he))

/-- Decidable equality for lists of fields of `JVal`s. -/
def JVal.decEqFields : (a b : List (String × JVal)) → Decidable (a = b)
  | [], [] => isTrue rfl
  | [], _ :: _ => isFalse (fun h => List.noConfusion h)
  | _ :: _, [] => isFalse (fun h => List.noConfusion h)
  | (k, v) :: t, (k2, v2) :: t2 =>
    match String.decEq k k2, JVal.decEq v v2, JVal.decEqFields t t2 with
    | isTrue h1, isTrue h2, isTrue h3 => isTrue (by rw [h1, h2, h3])
    | isFalse h1, _, _ =>
      isFalse (fun h => by
        injection h with h4 h5
        exact h1 (congrArg Prod.fst h4))
    | _, isFalse h2, _ =>
      isFalse (fun h => by
        injection h with h4 h5
        exact h2 (congrArg Prod.snd h4))
    | _, _, isFalse h3 =>
      isFalse (fun h => by
        injection h with h4 h5
        exact h3 h5)

end

instance : DecidableEq JVal := JVal.decEq

/-- One row of a pandas DataFrame: an ordered association list from field
names to JSON values. -/
abbrev Record : Type := List (String × JVal)

/-- Field lookup in a record, first occurrence wins (pandas column access
`row[k]`; `none` models the absent column / `KeyError` site). -/
def Record.get : Record → String → Option JVal
  | [], _ => none
  | (k0, v) :: t, k => if k0 = k then some v else Record.get t k

/-- Set a field of a record: replaces the first occurrence in place, or
appends a new field at the end (pandas `df[k] = value` column assignment). -/
def Record.set : Record → String → JVal → Record
  | [], k, v => [(k, v)]
  | (k0, v0) :: t, k, v =>
    if k0 = k then (k, v) :: t else (k0, v0) :: Record.set t k v

/-- Rename a field of a record in place
(pandas `df.rename(columns={old: new})`). -/
def Record.renameKey : Record → String → String → Record
  | [], _, _ => []
  | (k0, v) :: t, old, new =>
    (if k0 = old then (new, v) else (k0, v)) :: Record.renameKey t old new

/-- Lookup inside a nested JSON object value (`ii['author']` on the value
of the `commit` field). -/
def JVal.objGet (k : String) : JVal → Option JVal
  | .obj fields => Record.get fields k
  | _ => none

/-- The contents of one cache file: either a well-formed list of records,
or a file `pandas.read_json` fails to parse (raising `ValueError`). -/
inductive FileContent where
  | valid : List Record → FileContent
  | malformed : FileContent
deriving DecidableEq

/-- The filesystem: a map from paths to file contents, `none` = missing. -/
def FS : Type := String → Option FileContent

/-- Overwrite one file (the effect of `raw.to_json(filename, ...)`). -/
def write_fs (fs : FS) (path : String) (fc : FileContent) : FS :=
  fun q => if q = path then some fc else fs q

/-- The Python exception classes the module's control flow distinguishes:
`ValueError` (caught by `load_commits`) and `KeyError` (never caught). -/
inductive ExcKind where
  | valueError : ExcKind
  | keyError : ExcKind
deriving DecidableEq

/-- The kinds of `OSError` that `os.makedirs` can raise. -/
inductive OSErr where
  | fileExists : OSErr
  | permissionDenied : OSErr
  | other : OSErr
deriving DecidableEq

/-- Map a fallible function over a list, propagating the first exception
(the behaviour of a Python list comprehension / column conversion). -/
def mapExcept (f : α → Except ExcKind β) : List α → Except ExcKind (List β)
  | [] => .ok []
  | a :: t =>
    match f a with
    | .error e => .error e
    | .ok b =>
      match mapExcept f t with
      | .error e => .error e
      | .ok bs => .ok (b :: bs)

/-- A tz-aware pandas datetime array: the UTC instants of its entries plus
the display time zone (`none` = naive). -/
structure DateArray where
  instants : List Int
  zone : Option String
deriving DecidableEq

/-- Model of `pd.to_datetime(values)`: parse each value of the date
column into a naive datetime (its UTC instant).  A serialized date-time
string parses to the instant it denotes, an already-parsed Timestamp
passes through, and any other value raises `ValueError`. -/
def to_datetime (vals : List JVal) : Except ExcKind DateArray :=
  match mapExcept (fun v => match v with
      | JVal.time n => .ok n
      | JVal.datestr n => .ok n
      | _ => .error ExcKind.valueError) vals with
  | .error e => .error e
  | .ok ns => .ok { instants := ns, zone := none }

/-- Model of `.tz_localize(tz)`: interpret a naive datetime array as wall time of
`tz`; for UTC this keeps each instant and attaches the zone. -/
def tz_localize (tz : String) (d : DateArray) : DateArray :=
  { d with zone := some tz }

/-- Model of `.tz_convert(tz)`: re-express a tz-aware array in another display
zone; the underlying instants are unchanged. -/
def tz_convert (tz : String) (d : DateArray) : DateArray :=
  { d with zone := some tz }

/-- A loaded DataFrame: its rows plus the display zone of the `date`
column. -/
structure DF where
  rows : List Record
  dateZone : Option String
deriving DecidableEq

/-- Read the `date` column (`commits['date']`): raises `KeyError` when a
row has no `date` field. -/
def getDateColumn (rows : List Record) : Except ExcKind (List JVal) :=
  mapExcept (fun r => match Record.get r "date" with
    | some v => .ok v
    | none => .error ExcKind.keyError) rows

/-- Write the converted `date` column back over the rows
(`commits['date'] = ...`). -/
def setDateColumn (rows : List Record) (ds : List Int) : List Record :=
  List.zipWith (fun r n => Record.set r "date" (JVal.time n)) rows ds

/-- Modelled from the spec: the configuration collaborator's
`get_data_home` (module `_config`, not among the sources) resolves the
effective data-root directory — an explicit override or the documented
default `~/watchtower_data`. -/
def get_data_home (data_home : Option String) : String :=
  match data_home with
  | some d => d
  | none => "~/watchtower_data"

/-- Modelled from the spec: the credential collaborator's
`colon_seperated_pair` (module `_github_api`, not among the sources)
splits a `user:token` pair into its components. -/
def colon_seperated_pair (auth : String) : List String :=
  auth.splitOn ":"

/-- Modelled from the spec: serialization with the fixed date-time format
constant `DATETIME_FORMAT` (module `_config`, not among the sources).
`raw.to_json(filename, date_format=DATETIME_FORMAT)` stores the records
with each timestamp written in the fixed format; the format is modelled
as denoting the timestamp's UTC instant losslessly, so the stored file
holds the rows themselves. -/
def to_json (rows : List Record) : FileContent :=
  FileContent.valid rows

/-- Model of `os.path.join` for the relative components used here. -/
def path_join (a b : String) : String := a ++ "/" ++ b

/-- The cache path resolved by `load_commits` (lines 39–45 of
`commits_.py`): three shapes according to which of project/branch are
absent, project checked first. -/
def load_filepath (dataHome user : String)
    (project branch : Option String) : String :=
  match project with
  | none => path_join (path_join (path_join dataHome "users") user)
      "activity.json"
  | some p =>
    match branch with
    | none => path_join (path_join (path_join (path_join dataHome
        "projects") user) p) "commits.json"
    | some b => path_join (path_join (path_join (path_join (path_join
        (path_join dataHome "projects") user) p) "branches") b)
        "commits.json"

/-- The cache path resolved by `update_commits` (lines 100–112 of
`commits_.py`); the source duplicates the resolution code of
`load_commits`. -/
def update_filename (path user : String)
    (project branch : Option String) : String :=
  match project with
  | none => path_join (path_join (path_join path "users") user)
      "activity.json"
  | some p =>
    match branch with
    | none => path_join (path_join (path_join (path_join path
        "projects") user) p) "commits.json"
    | some b => path_join (path_join (path_join (path_join (path_join
        (path_join path "projects") user) p) "branches") b)
        "commits.json"

/-- The GitHub endpoint resolved by `update_commits`: user-events when
project is absent, repository commits (optionally filtered by branch)
otherwise. -/
def update_url (user : String) (project branch : Option String) : String :=
  match project with
  | none => "https://api.github.com/users/" ++ user ++ "/events"
  | some p =>
    match branch with
    | none => "https://api.github.com/repos/" ++ user ++ "/" ++ p
        ++ "/commits"
    | some b => "https://api.github.com/repos/" ++ user ++ "/" ++ p
        ++ "/commits?sha=" ++ b

/-- Modelled from the spec: the `ProjectCommits` handler (module
`handlers_`, not among the sources) is a wrapped handle that also carries
owner/project identity for downstream consumption.  `load_commits` returns
either the raw tabular record set or such a handler. -/
inductive LoadResult where
  | raw : DF → LoadResult
  | handler : String → Option String → DF → LoadResult
deriving DecidableEq

/-- The DataFrame carried by either form of load result. -/
def LoadResult.df : LoadResult → DF
  | .raw d => d
  | .handler _ _ d => d

/-- The body of the `try:` block of `load_commits` (lines 46–51):
`pd.read_json` (raising `ValueError` on a missing or malformed file),
then re-parsing of the `date` column (`KeyError` when the column is
absent, `ValueError` when a value does not parse), localization to UTC and
conversion to US/Pacific, and the explicit `raise ValueError` on an empty
frame. -/
def loadBody (fc : Option FileContent) : Except ExcKind DF :=
  match fc with
  | none => .error ExcKind.valueError
  | some FileContent.malformed => .error ExcKind.valueError
  | some (FileContent.valid rows) =>
    match getDateColumn rows with
    | .error e => .error e
    | .ok vals =>
      match to_datetime vals with
      | .error e => .error e
      | .ok naive =>
        let arr := tz_convert "US/Pacific" (tz_localize "UTC" naive)
        let commits : DF :=
          { rows := setDateColumn rows arr.instants, dateZone := arr.zone }
        if commits.rows.length = 0 then .error ExcKind.valueError
        else .ok commits

/-- The reader `load_commits` (lines 11–60): resolve the cache path, run the body,
catch `ValueError` only (printing the message and returning the `None`
sentinel, modelled as `Except.ok none`); any other exception — in this
model `KeyError` — propagates.  On success the result is the raw
DataFrame, or the `ProjectCommits` handler when `use_handler` is set. -/
def load_commits (fs : FS) (user : String) (project : Option String)
    (data_home : Option String) (use_handler : Bool)
    (branch : Option String) : Except ExcKind (Option LoadResult) :=
  let dataHome := get_data_home data_home
  let filepath := load_filepath dataHome user project branch
  match loadBody (fs filepath) with
  | .error ExcKind.valueError => .ok none
  | .error ExcKind.keyError => .error ExcKind.keyError
  | .ok commits =>
    .ok (some (if use_handler then LoadResult.handler user project commits
               else LoadResult.raw commits))

/-- The nested author timestamp of one commit record:
`ii['author']['date']` applied to the value of the `commit` field;
`none` models the lookup raising. -/
def commit_author_date (r : Record) : Option JVal :=
  ((Record.get r "commit").bind (JVal.objGet "author")).bind
    (JVal.objGet "date")

/-- Extraction `dates = [ii['author']['date'] for ii in raw['commit'].values]`
(line 127): extract every record's nested author timestamp, raising when
a record lacks the nested field. -/
def extract_commit_dates (rows : List Record) : Except ExcKind (List JVal) :=
  mapExcept (fun r => match commit_author_date r with
    | some v => .ok v
    | none => .error ExcKind.keyError) rows

/-- The normalization step of `update_commits` (lines 124–128): for
user-activity records rename `created_at` to `date`; for commit records
extract the nested author timestamps and assign them as the `date`
column. -/
def normalize_dates (project : Option String) (rows : List Record) :
    Except ExcKind (List Record) :=
  match project with
  | none => .ok (rows.map (fun r => Record.renameKey r "created_at" "date"))
  | some _ =>
    match extract_commit_dates rows with
    | .error e => .error e
    | .ok dates =>
      .ok (List.zipWith (fun r v => Record.set r "date" v) rows dates)

/-- The deduplication key of a row: its `date` field
(`drop_duplicates(subset=['date'])` keys on the `date` column; the absent
column is modelled as the key `none`). -/
def dateKey (r : Record) : Option JVal := Record.get r "date"

/-- Worker for `drop_duplicates_date`: keep a row iff its date key has not
been seen yet, scanning left to right. -/
def dedupeGo (seen : List (Option JVal)) : List Record → List Record
  | [] => []
  | r :: rs =>
    if dateKey r ∈ seen then dedupeGo seen rs
    else r :: dedupeGo (dateKey r :: seen) rs

/-- Model of `raw.drop_duplicates(subset=['date'])` (line 135): keep the first
occurrence of each `date` value, preserving order. -/
def drop_duplicates_date (l : List Record) : List Record :=
  dedupeGo [] l

/-- The guarded `os.makedirs` call (lines 136–139): whatever `OSError`
the call raises — directory already exists, permission denied, or any
other kind — is swallowed by `except OSError: pass`. -/
def tryMakedirs (mkdirsErr : Option OSErr) : Unit :=
  match mkdirsErr with
  | some _ => ()
  | none => ()

/-- The updater `update_commits` (lines 62–143).  The external paging collaborator
`_github_api.get_frames` (not among the sources; per the spec it returns a
flat ordered sequence of opaque records) is modelled by the `fetched`
input; the outcome of `os.makedirs` is the `mkdirsErr` oracle.  The
returned filesystem reflects every write performed before a possible
uncaught exception. -/
def update_commits (fs : FS) (fetched : List Record) (user : String)
    (project : Option String) (auth : String) (data_home : Option String)
    (branch : Option String) (mkdirsErr : Option OSErr) :
    FS × Except ExcKind (Option LoadResult) :=
  let path := get_data_home data_home
  let _authPair := colon_seperated_pair auth
  let _url := update_url user project branch
  let filename := update_filename path user project branch
  let raw := fetched
  if raw.length = 0 then
    (fs, .ok none)
  else
    match normalize_dates project raw with
    | .error e => (fs, .error e)
    | .ok raw1 =>
      match load_commits fs user project data_home false branch with
      | .error e => (fs, .error e)
      | .ok old_raw =>
        let raw2 := match old_raw with
          | some lr => drop_duplicates_date (raw1 ++ lr.df.rows)
          | none => raw1
        let _ := tryMakedirs mkdirsErr
        let fs2 := write_fs fs filename (to_json raw2)
        (fs2, load_commits fs2 user project data_home false branch)

/-- Python's `str.lower()`, modelled character-wise (basic latin case
folding, which covers every string the module uses). -/
def py_lower (s : String) : String :=
  String.mk (s.data.map Char.toLower)

/-- The membership test `word in string` of Python: substring (contiguous
infix) occurrence. -/
def py_in (word s : String) : Bool :=
  decide (word.data <:+: s.data)

/-- The matcher `find_word_in_string` (lines 146–169): count the query words occurring
case-insensitively in the string and report whether the count is positive;
`queries=None` defaults to the single word `doc` (the source also wraps a
bare string into a one-element list, which the `Option (List String)`
argument models directly). -/
def find_word_in_string (s : String) (queries : Option (List String)) :
    Bool :=
  let qs := match queries with
    | none => ["doc"]
    | some l => l
  let in_string : Nat := qs.foldl
    (fun acc w => if py_in (py_lower w) (py_lower s) then acc + 1 else acc) 0
  decide (in_string > 0)

/-- The cache file recorded in the filesystem component of an
`update_commits` result. -/
def writtenFile (r : FS × Except ExcKind (Option LoadResult))
    (p : String) : Option FileContent :=
  r.1 p

/-- The rows the updater persists, as a function of the old-cache load
result: the concatenation-then-dedupe merge when an old record set was
loaded, the bare normalized fresh rows otherwise. -/
def merged_rows (normd : List Record) : Option LoadResult → List Record
  | some lr => drop_duplicates_date (normd ++ lr.df.rows)
  | none => normd

/-- Concrete scenario for the merge tie-break: the previously cached
record, timestamp instant 0. -/
def c1_old : Record := [("date", JVal.time 0), ("id", JVal.str "old")]

/-- Concrete scenario: the freshly fetched commit record; its nested
author timestamp is the serialized string denoting the same instant 0. -/
def c1_freshRaw : Record :=
  [("commit", JVal.obj
      [("author", JVal.obj
        [("date", JVal.datestr 0), ("name", JVal.str "n")])]),
   ("id", JVal.str "new")]

/-- Concrete scenario: the fresh record after normalization (the extracted
author timestamp string assigned as the `date` column). -/
def c1_fresh : Record :=
  [("commit", JVal.obj
      [("author", JVal.obj
        [("date", JVal.datestr 0), ("name", JVal.str "n")])]),
   ("id", JVal.str "new"), ("date", JVal.datestr 0)]

/-- Concrete scenario: the resolved cache path for
owner acme / project widget under the default data root. -/
def c1_path : String := "~/watchtower_data/projects/acme/widget/commits.json"

/-- Concrete scenario: a filesystem whose only file is the existing cache
holding the old record. -/
def c1_fs : FS :=
  fun q => if q = c1_path then some (FileContent.valid [c1_old]) else none

/-- Concrete scenario for the missing-dedupe case: first fresh
user-activity record, creation-timestamp string denoting instant 5. -/
def c2_r1 : Record := [("created_at", JVal.datestr 5), ("id", JVal.str "a")]

/-- Concrete scenario: second fresh user-activity record with the same
creation-timestamp string. -/
def c2_r2 : Record := [("created_at", JVal.datestr 5), ("id", JVal.str "b")]

/-- Concrete scenario: the first record after the rename normalization. -/
def c2_n1 : Record := [("date", JVal.datestr 5), ("id", JVal.str "a")]

/-- Concrete scenario: the second record after the rename normalization. -/
def c2_n2 : Record := [("date", JVal.datestr 5), ("id", JVal.str "b")]

/-- Concrete scenario: the resolved user-activity cache path for owner
acme under the default data root. -/
def c2_path : String := "~/watchtower_data/users/acme/activity.json"

/-- Concrete scenario: a filesystem holding a well-formed non-empty cache
file at the user-activity path. -/
def c8_fs : FS :=
  fun q => if q = c2_path
    then some (FileContent.valid [[("date", JVal.time 5), ("id", JVal.str "a")]])
    else none

/-- Concrete scenario: a filesystem holding a well-formed cache file whose
records lack the `date` field. -/
def c4_fs : FS :=
  fun q => if q = c2_path
    then some (FileContent.valid [[("sha", JVal.str "x")]]) else none

theorem Record.get_set_self (r : Record) (k : String) (v : JVal)
    (h : Record.get r k = some v) : Record.set r k v = r := by
  induction r with
  | nil => simp [Record.get] at h
  | cons kv t ih =>
    obtain ⟨k0, v0⟩ := kv
    by_cases hk : k0 = k
    · subst hk
      have h2 : v0 = v := by simpa [Record.get] using h
      subst h2
      simp [Record.set]
    · simp only [Record.get, if_neg hk] at h
      simp [Record.set, hk, ih h]

theorem Record.get_set (r : Record) (k : String) (v : JVal) :
    Record.get (Record.set r k v) k = some v := by
  induction r with
  | nil => simp [Record.set, Record.get]
  | cons kv t ih =>
    obtain ⟨k0, v0⟩ := kv
    by_cases hk : k0 = k
    · subst hk; simp [Record.set, Record.get]
    · simp [Record.set, Record.get, hk, ih]

theorem Record.get_renameKey (r : Record) (old new : String)
    (hnew : Record.get r new = none) :
    Record.get (Record.renameKey r old new) new = Record.get r old := by
  induction r with
  | nil => rfl
  | cons kv t ih =>
    obtain ⟨k0, v0⟩ := kv
    by_cases ho : k0 = old
    · subst ho
      rw [Record.renameKey, if_pos rfl, Record.get, if_pos rfl, Record.get,
        if_pos rfl]
    · have hn : k0 ≠ new := by
        intro he
        rw [Record.get, if_pos he] at hnew
        exact Option.noConfusion hnew
      rw [Record.get, if_neg hn] at hnew
      simp only [Record.renameKey, if_neg ho]
      simp only [Record.get, if_neg hn, if_neg ho]
      exact ih hnew

/-- C3: for all (owner, project, branch) combinations the reader and the
updater resolve the same path, and the path is exactly one of the three
documented shapes, determined by which of project/branch are absent. -/
theorem update_and_load_resolve_three_path_shapes
    (dh u pv bv : String) (po bo : Option String) :
    update_filename dh u po bo = load_filepath dh u po bo ∧
    load_filepath dh u none none = dh ++ "/users/" ++ u ++ "/activity.json" ∧
    load_filepath dh u (some pv) none
      = dh ++ "/projects/" ++ u ++ "/" ++ pv ++ "/commits.json" ∧
    load_filepath dh u (some pv) (some bv)
      = dh ++ "/projects/" ++ u ++ "/" ++ pv ++ "/branches/" ++ bv
          ++ "/commits.json" ∧
    load_filepath dh u none (some bv)
      = dh ++ "/users/" ++ u ++ "/activity.json" := by
  refine ⟨?_, ?_, ?_, ?_, ?_⟩
  · cases po with
    | none => rfl
    | some p =>
      cases bo with
      | none => rfl
      | some b => rfl
  · simp [load_filepath, path_join, String.append_assoc]
  · simp [load_filepath, path_join, String.append_assoc]
  · simp [load_filepath, path_join, String.append_assoc]
  · simp [load_filepath, path_join, String.append_assoc]

/-- C5: an update whose fetch returns zero records reports the sentinel
and leaves the filesystem untouched: no file is created and any existing
cache file is unchanged. -/
theorem update_zero_records_no_mutation (fs : FS) (u auth : String)
    (p dh b : Option String) (mk : Option OSErr) :
    update_commits fs [] u p auth dh b mk = (fs, Except.ok none) := rfl

theorem foldl_count (p : α → Bool) (l : List α) (acc : Nat) :
    l.foldl (fun a w => if p w then a + 1 else a) acc = acc + l.countP p := by
  induction l generalizing acc with
  | nil => simp [List.countP_nil]
  | cons a t ih =>
    by_cases h : p a
    · simp only [List.foldl_cons, if_pos h, ih, List.countP_cons, h,
        if_pos]
      omega
    · simp only [List.foldl_cons, if_neg h, ih, List.countP_cons, h]
      simp

/-- C9: the matcher returns true iff some query word occurs
case-insensitively as a substring of the text; the default query list is
the single word doc; and the two documented examples evaluate as
specified. -/
theorem find_word_in_string_spec (s : String) (qs : List String) :
    (find_word_in_string s (some qs) = true ↔
       ∃ w ∈ qs, (py_lower w).data <:+: (py_lower s).data) ∧
    find_word_in_string s none = find_word_in_string s (some ["doc"]) ∧
    find_word_in_string "Updated the docs" none = true ∧
    find_word_in_string "Updated the docs" (some ["foo", "bar"]) = false := by
  refine ⟨?_, rfl, by decide, by decide⟩
  simp only [find_word_in_string]
  rw [foldl_count (fun w => py_in (py_lower w) (py_lower s)) qs 0]
  simp only [Nat.zero_add, gt_iff_lt, decide_eq_true_eq, List.countP_pos_iff,
    py_in, decide_eq_true_eq]

/-- C4 (corrected): the reader never lets a ValueError escape — a missing
file, a malformed file and a zero-record file each yield the no-data
sentinel — but (contrary to the claim) a well-formed file whose records
lack the timestamp field is not covered: see the counterexample. -/
theorem load_commits_sentinel_cases (fs : FS) (u : String)
    (p dh b : Option String) (uh : Bool) :
    (load_commits fs u p dh uh b ≠ Except.error ExcKind.valueError) ∧
    (fs (load_filepath (get_data_home dh) u p b) = none →
       load_commits fs u p dh uh b = Except.ok none) ∧
    (fs (load_filepath (get_data_home dh) u p b) = some FileContent.malformed →
       load_commits fs u p dh uh b = Except.ok none) ∧
    (fs (load_filepath (get_data_home dh) u p b)
        = some (FileContent.valid []) →
       load_commits fs u p dh uh b = Except.ok none) := by
  refine ⟨?_, ?_, ?_, ?_⟩
  · simp only [load_commits]
    split
    · simp
    · simp
    · simp
  · intro h
    simp only [load_commits, h]
    rfl
  · intro h
    simp only [load_commits, h]
    rfl
  · intro h
    simp only [load_commits, h]
    rfl

/-- C4, witness: a concrete missing-file read returns the sentinel. -/
theorem load_commits_sentinel_cases_witness :
    load_commits (fun _ => none) "acme" none none false none
      = Except.ok none :=
  (load_commits_sentinel_cases (fun _ => none) "acme" none none none
    false).2.1 rfl

/-- C4, counterexample: a well-formed cache file whose single record lacks
the `date` field makes the reader raise `KeyError` (the `except` clause
catches only `ValueError`), contradicting the claim that the reader never
raises. -/
theorem load_commits_missing_date_raises :
    load_commits c4_fs "acme" none none false none
      = Except.error ExcKind.keyError := rfl

theorem mem_dedupeGo (l : List Record) :
    ∀ (seen : List (Option JVal)) (r : Record), r ∈ dedupeGo seen l →
      dateKey r ∉ seen ∧
      l.find? (fun x => decide (dateKey x = dateKey r)) = some r := by
  induction l with
  | nil =>
    intro seen r h
    simp [dedupeGo] at h
  | cons a t ih =>
    intro seen r h
    simp only [dedupeGo] at h
    by_cases ha : dateKey a ∈ seen
    · rw [if_pos ha] at h
      obtain ⟨hns, hfind⟩ := ih seen r h
      refine ⟨hns, ?_⟩
      rw [List.find?_cons_of_neg, hfind]
      simp only [decide_eq_true_eq]
      intro he
      exact hns (he ▸ ha)
    · rw [if_neg ha] at h
      rcases List.mem_cons.mp h with rfl | h2
      · exact ⟨ha, List.find?_cons_of_pos _ (by simp)⟩
      · obtain ⟨hns, hfind⟩ := ih _ r h2
        have hne : ¬(dateKey a = dateKey r) := by
          intro he
          exact hns (he ▸ List.mem_cons_self _ _)
        refine ⟨fun hm => hns (List.mem_cons_of_mem _ hm), ?_⟩
        rw [List.find?_cons_of_neg, hfind]
        simpa using hne

theorem pairwise_dedupeGo (l : List Record) :
    ∀ seen, (dedupeGo seen l).Pairwise
      (fun a b => dateKey a ≠ dateKey b) := by
  induction l with
  | nil =>
    intro seen
    simp [dedupeGo]
  | cons a t ih =>
    intro seen
    simp only [dedupeGo]
    by_cases ha : dateKey a ∈ seen
    · rw [if_pos ha]
      exact ih seen
    · rw [if_neg ha]
      refine List.Pairwise.cons ?_ (ih _)
      intro b hb
      have hns := (mem_dedupeGo t _ b hb).1
      intro he
      exact hns (he ▸ List.mem_cons_self _ _)

theorem exists_mem_dedupeGo (l : List Record) :
    ∀ (seen : List (Option JVal)) (x : Record), x ∈ l → dateKey x ∉ seen →
      ∃ r ∈ dedupeGo seen l, dateKey r = dateKey x := by
  induction l with
  | nil =>
    intro seen x hx
    simp at hx
  | cons a t ih =>
    intro seen x hx hns
    simp only [dedupeGo]
    by_cases ha : dateKey a ∈ seen
    · rw [if_pos ha]
      rcases List.mem_cons.mp hx with rfl | h2
      · exact absurd ha hns
      · exact ih seen x h2 hns
    · rw [if_neg ha]
      rcases List.mem_cons.mp hx with rfl | h2
      · exact ⟨x, List.mem_cons_self _ _, rfl⟩
      · by_cases hax : dateKey x = dateKey a
        · exact ⟨a, List.mem_cons_self _ _, hax.symm⟩
        · have hns2 : dateKey x ∉ (dateKey a :: seen) := by
            intro hm
            rcases List.mem_cons.mp hm with he | hm2
            · exact hax he
            · exact hns hm2
          obtain ⟨r, hr, hkey⟩ := ih _ x h2 hns2
          exact ⟨r, List.mem_cons_of_mem _ hr, hkey⟩

theorem mapExcept_time_ok (ns : List Int) :
    mapExcept (fun v => match v with
      | JVal.time n => Except.ok n
      | JVal.datestr n => Except.ok n
      | _ => Except.error ExcKind.valueError) (ns.map JVal.time)
      = Except.ok ns := by
  induction ns with
  | nil => rfl
  | cons n t ih => simp only [List.map_cons, mapExcept, ih]

theorem to_datetime_times (ns : List Int) :
    to_datetime (ns.map JVal.time)
      = Except.ok { instants := ns, zone := none } := by
  simp only [to_datetime, mapExcept_time_ok]

theorem getDateColumn_times (rows : List Record)
    (hd : ∀ r ∈ rows, ∃ n : Int, Record.get r "date" = some (JVal.time n)) :
    ∃ ns : List Int, getDateColumn rows = Except.ok (ns.map JVal.time) ∧
      setDateColumn rows ns = rows := by
  induction rows with
  | nil => exact ⟨[], rfl, rfl⟩
  | cons r t ih =>
    obtain ⟨n, hn⟩ := hd r (List.mem_cons_self _ _)
    obtain ⟨ns, h1, h2⟩ :=
      ih (fun x hx => hd x (List.mem_cons_of_mem _ hx))
    refine ⟨n :: ns, ?_, ?_⟩
    · simp only [getDateColumn] at h1 ⊢
      simp only [List.map_cons, mapExcept, hn, h1]
    · simp only [setDateColumn, List.zipWith_cons_cons] at h2 ⊢
      rw [Record.get_set_self r _ _ hn, h2]

theorem loadBody_valid (rows : List Record) (hne : rows ≠ [])
    (hd : ∀ r ∈ rows, ∃ n : Int, Record.get r "date" = some (JVal.time n)) :
    loadBody (some (FileContent.valid rows)) =
      Except.ok { rows := rows, dateZone := some "US/Pacific" } := by
  obtain ⟨ns, h1, h2⟩ := getDateColumn_times rows hd
  simp only [loadBody, h1, to_datetime_times, tz_localize, tz_convert, h2]
  rw [if_neg (by simpa using hne)]

theorem load_commits_valid (fs : FS) (u : String) (p dh b : Option String)
    (uh : Bool) (rows : List Record)
    (hfs : fs (load_filepath (get_data_home dh) u p b)
      = some (FileContent.valid rows))
    (hne : rows ≠ [])
    (hd : ∀ r ∈ rows, ∃ n : Int, Record.get r "date" = some (JVal.time n)) :
    load_commits fs u p dh uh b =
      Except.ok (some (if uh
        then LoadResult.handler u p { rows := rows, dateZone := some "US/Pacific" }
        else LoadResult.raw { rows := rows, dateZone := some "US/Pacific" })) := by
  simp only [load_commits, hfs, loadBody_valid rows hne hd]

theorem update_commits_merge (fs : FS) (fetched normd : List Record)
    (df : DF) (u auth : String) (p dh b : Option String) (mk : Option OSErr)
    (hne : fetched ≠ [])
    (hn : normalize_dates p fetched = Except.ok normd)
    (hold : load_commits fs u p dh false b
      = Except.ok (some (LoadResult.raw df))) :
    update_commits fs fetched u p auth dh b mk =
      (write_fs fs (update_filename (get_data_home dh) u p b)
         (to_json (drop_duplicates_date (normd ++ df.rows))),
       load_commits
         (write_fs fs (update_filename (get_data_home dh) u p b)
            (to_json (drop_duplicates_date (normd ++ df.rows))))
         u p dh false b) := by
  simp only [update_commits]
  rw [if_neg (by simpa using hne), hn, hold]
  rfl

theorem update_commits_reaches_write (fs : FS) (fetched normd : List Record)
    (o : Option LoadResult) (u auth : String) (p dh b : Option String)
    (mk : Option OSErr)
    (hne : fetched ≠ [])
    (hn : normalize_dates p fetched = Except.ok normd)
    (hold : load_commits fs u p dh false b = Except.ok o) :
    (update_commits fs fetched u p auth dh b mk).1 =
      write_fs fs (update_filename (get_data_home dh) u p b)
        (to_json (merged_rows normd o)) := by
  simp only [update_commits]
  rw [if_neg (by simpa using hne), hn, hold]
  cases o with
  | none => rfl
  | some lr => rfl

theorem first_mem_dedupeGo (l : List Record) :
    ∀ (seen : List (Option JVal)) (x : Record),
      l.find? (fun y => decide (dateKey y = dateKey x)) = some x →
      dateKey x ∉ seen → x ∈ dedupeGo seen l := by
  induction l with
  | nil =>
    intro seen x h
    simp at h
  | cons a t ih =>
    intro seen x h hns
    by_cases hpa : dateKey a = dateKey x
    · rw [List.find?_cons_of_pos _ (by simpa using hpa)] at h
      have hax : a = x := by simpa using h
      subst hax
      simp only [dedupeGo]
      rw [if_neg hns]
      exact List.mem_cons_self _ _
    · rw [List.find?_cons_of_neg _ (by simpa using hpa)] at h
      simp only [dedupeGo]
      by_cases ha : dateKey a ∈ seen
      · rw [if_pos ha]
        exact ih seen x h hns
      · rw [if_neg ha]
        refine List.mem_cons_of_mem _ (ih _ x h ?_)
        intro hm
        rcases List.mem_cons.mp hm with he | hm2
        · exact hpa he.symm
        · exact hns hm2

theorem setDateColumn_keys (rows : List Record) (ns : List Int) :
    ∀ r ∈ setDateColumn rows ns, ∃ n : Int,
      dateKey r = some (JVal.time n) := by
  induction rows generalizing ns with
  | nil =>
    intro r hr
    simp [setDateColumn] at hr
  | cons a t ih =>
    intro r hr
    cases ns with
    | nil => simp [setDateColumn] at hr
    | cons n ms =>
      simp only [setDateColumn, List.zipWith_cons_cons] at hr
      rcases List.mem_cons.mp hr with rfl | hr2
      · exact ⟨n, Record.get_set a "date" (JVal.time n)⟩
      · exact ih ms r (by simpa [setDateColumn] using hr2)

theorem loadBody_ok_rows (fc : Option FileContent) (df : DF)
    (h : loadBody fc = Except.ok df) :
    ∃ rows0 ns, df.rows = setDateColumn rows0 ns := by
  cases fc with
  | none => simp [loadBody] at h
  | some c =>
    cases c with
    | malformed => simp [loadBody] at h
    | valid rows0 =>
      simp only [loadBody] at h
      cases hg : getDateColumn rows0 with
      | error e =>
        simp only [hg] at h
        simp at h
      | ok vals =>
        simp only [hg] at h
        cases ht : to_datetime vals with
        | error e =>
          simp only [ht] at h
          simp at h
        | ok naive =>
          simp only [ht] at h
          split at h
          · simp at h
          · simp only [Except.ok.injEq] at h
            exact ⟨rows0, _, by rw [← h]⟩

theorem load_ok_rows_time (fs : FS) (u : String) (p dh b : Option String)
    (df : DF)
    (hold : load_commits fs u p dh false b
      = Except.ok (some (LoadResult.raw df))) :
    ∀ r ∈ df.rows, ∃ n : Int, dateKey r = some (JVal.time n) := by
  have h2 : loadBody (fs (load_filepath (get_data_home dh) u p b))
      = Except.ok df := by
    revert hold
    simp only [load_commits]
    cases hb : loadBody (fs (load_filepath (get_data_home dh) u p b)) with
    | error e =>
      cases e with
      | valueError =>
        intro h
        exact absurd h (by simp)
      | keyError =>
        intro h
        exact absurd h (by simp)
    | ok commits =>
      intro h
      simp only [Bool.false_eq_true, if_false, Except.ok.injEq,
        Option.some.injEq, LoadResult.raw.injEq] at h
      rw [h]
  obtain ⟨rows0, ns, hrows⟩ := loadBody_ok_rows _ df h2
  rw [hrows]
  exact setDateColumn_keys rows0 ns

/-- C1 (corrected): when an update merges fresh records with an existing
cache, the persisted record set is the dedupe of the concatenation
fresh-then-old, and the dedupe keeps the first occurrence of each date
value in concatenation order; but a fresh record carries its date as a
serialized string while a loaded record carries the tz-aware timestamp
the reader produced, and these are never equal as values, so the dedupe
never pairs a fresh record with a previously-stored one: an old record
that is the first of its date value among the old rows always survives,
and so does every fresh record that is the first of its date value among
the fresh rows — on a duplicate instant neither side is dropped. -/
theorem update_merge_keep_first_no_cross_dedupe (fs : FS)
    (fetched normd : List Record) (df : DF) (u auth : String)
    (p dh b : Option String) (mk : Option OSErr)
    (hne : fetched ≠ [])
    (hn : normalize_dates p fetched = Except.ok normd)
    (hold : load_commits fs u p dh false b
      = Except.ok (some (LoadResult.raw df)))
    (hfresh : ∀ r ∈ normd, ∃ n : Int, dateKey r = some (JVal.datestr n)) :
    writtenFile (update_commits fs fetched u p auth dh b mk)
        (update_filename (get_data_home dh) u p b)
      = some (to_json (drop_duplicates_date (normd ++ df.rows))) ∧
    (∀ r ∈ drop_duplicates_date (normd ++ df.rows),
       (normd ++ df.rows).find? (fun x => decide (dateKey x = dateKey r))
         = some r) ∧
    (∀ ro ∈ df.rows,
       df.rows.find? (fun x => decide (dateKey x = dateKey ro)) = some ro →
       ro ∈ drop_duplicates_date (normd ++ df.rows)) ∧
    (∀ rn ∈ normd,
       normd.find? (fun x => decide (dateKey x = dateKey rn)) = some rn →
       rn ∈ drop_duplicates_date (normd ++ df.rows)) := by
  have hdfkeys := load_ok_rows_time fs u p dh b df hold
  refine ⟨?_, ?_, ?_, ?_⟩
  · rw [writtenFile,
      update_commits_merge fs fetched normd df u auth p dh b mk hne hn hold]
    simp [write_fs]
  · intro r hr
    exact (mem_dedupeGo _ _ r hr).2
  · intro ro hro hfirst
    have hnone : normd.find?
        (fun x => decide (dateKey x = dateKey ro)) = none := by
      rw [List.find?_eq_none]
      intro x hx
      obtain ⟨n1, hx1⟩ := hfresh x hx
      obtain ⟨n2, hro2⟩ := hdfkeys ro hro
      simp only [decide_eq_true_eq]
      rw [hx1, hro2]
      simp
    apply first_mem_dedupeGo (normd ++ df.rows) [] ro ?_ (by simp)
    rw [List.find?_append, hnone]
    simpa using hfirst
  · intro rn hrn hfirst
    apply first_mem_dedupeGo (normd ++ df.rows) [] rn ?_ (by simp)
    rw [List.find?_append, hfirst]
    rfl

/-- C1, counterexample: with an existing cache record at instant 0 and a
fresh commit record whose serialized author timestamp denotes the same
instant 0, the program persists BOTH records — the old record survives
but the fresh one is not dropped, refuting the claimed tie-break.  The
program's own date parser maps both date values to instant 0, yet as
dedupe keys the string and the timestamp are distinct values. -/
theorem update_merge_persists_both_duplicates :
    writtenFile (update_commits c1_fs [c1_freshRaw] "acme" (some "widget")
        "" none none none) c1_path
      = some (to_json [c1_fresh, c1_old]) ∧
    dateKey c1_fresh = some (JVal.datestr 0) ∧
    dateKey c1_old = some (JVal.time 0) ∧
    to_datetime [JVal.datestr 0, JVal.time 0]
      = Except.ok { instants := [0, 0], zone := none } :=
  ⟨by decide, by decide, by decide, rfl⟩

/-- C1, witness for the corrected statement at the concrete scenario: the
previously-stored record survives the merge although a fresh record
denotes the same instant. -/
theorem update_merge_keep_first_no_cross_dedupe_witness :
    c1_old ∈ drop_duplicates_date ([c1_fresh] ++ [c1_old]) :=
  (update_merge_keep_first_no_cross_dedupe c1_fs [c1_freshRaw] [c1_fresh]
      { rows := [c1_old], dateZone := some "US/Pacific" } "acme" ""
      (some "widget") none none none (List.cons_ne_nil _ _) rfl rfl
      (fun r hr => by
        rw [List.mem_singleton] at hr
        subst hr
        exact ⟨0, rfl⟩)).2.2.1 c1_old (List.mem_singleton.mpr rfl) rfl

/-- C2 (corrected): when a prior cache was loaded in the merge, the
persisted record set has pairwise-distinct date values — no two persisted
records carry dedupe-equal date fields.  This is weaker than the claimed
invariant in the two ways the code forces: the dedupe runs only in the
merge branch, so with no prior cache even identical date values are
persisted twice (see the counterexample); and a fresh record's string
date is never value-equal to a loaded record's timestamp date, so two
records denoting the same instant in the two representations both
survive a merge (established under C1). -/
theorem update_merge_pairwise_distinct_date_values (fs : FS)
    (fetched normd : List Record) (df : DF) (u auth : String)
    (p dh b : Option String) (mk : Option OSErr)
    (hne : fetched ≠ [])
    (hn : normalize_dates p fetched = Except.ok normd)
    (hold : load_commits fs u p dh false b
      = Except.ok (some (LoadResult.raw df))) :
    writtenFile (update_commits fs fetched u p auth dh b mk)
        (update_filename (get_data_home dh) u p b)
      = some (to_json (drop_duplicates_date (normd ++ df.rows))) ∧
    (drop_duplicates_date (normd ++ df.rows)).Pairwise
      (fun a b => dateKey a ≠ dateKey b) := by
  refine ⟨?_, pairwise_dedupeGo _ []⟩
  rw [writtenFile,
    update_commits_merge fs fetched normd df u auth p dh b mk hne hn hold]
  simp [write_fs]

/-- C2, counterexample: with no prior cache file, two fresh records
sharing the same serialized creation timestamp are both persisted — the
written record set contains two distinct records with an identical
timestamp value, refuting the claimed invariant for the no-prior-cache
case. -/
theorem update_without_prior_cache_persists_duplicates :
    writtenFile (update_commits (fun _ => none) [c2_r1, c2_r2] "acme" none
        "" none none none) c2_path
      = some (to_json [c2_n1, c2_n2]) ∧
    dateKey c2_n1 = dateKey c2_n2 ∧
    c2_n1 ≠ c2_n2 :=
  ⟨by decide, by decide, by decide⟩

/-- C2, witness for the corrected statement at the concrete scenario. -/
theorem update_merge_pairwise_distinct_date_values_witness :
    (drop_duplicates_date ([c1_fresh] ++ [c1_old])).Pairwise
      (fun a b => dateKey a ≠ dateKey b) :=
  (update_merge_pairwise_distinct_date_values c1_fs [c1_freshRaw] [c1_fresh]
      { rows := [c1_old], dateZone := some "US/Pacific" } "acme" ""
      (some "widget") none none none (List.cons_ne_nil _ _) rfl rfl).2

/-- C7: writing a record set with the fixed timestamp serialization and
immediately reading it back yields the same rows, with the timestamp
column re-expressed in the fixed display zone US/Pacific — the instants
are unchanged, so reinterpreted in that zone they equal the originals.
(The record set satisfies the data-model invariant that every record
carries a timestamp, and is non-empty — an empty set reads back as the
no-data sentinel.) -/
theorem write_then_load_roundtrip (fs : FS) (rows : List Record)
    (u : String) (p dh b : Option String)
    (hne : rows ≠ [])
    (hd : ∀ r ∈ rows, ∃ n : Int, Record.get r "date" = some (JVal.time n)) :
    load_commits
        (write_fs fs (load_filepath (get_data_home dh) u p b) (to_json rows))
        u p dh false b
      = Except.ok (some (LoadResult.raw
          { rows := rows, dateZone := some "US/Pacific" })) := by
  have h := load_commits_valid
    (write_fs fs (load_filepath (get_data_home dh) u p b) (to_json rows))
    u p dh b false rows (by simp [write_fs, to_json]) hne hd
  simpa using h

/-- C7, witness: a concrete one-record round trip. -/
theorem write_then_load_roundtrip_witness :
    load_commits
        (write_fs (fun _ => none)
          (load_filepath (get_data_home none) "acme" none none)
          (to_json [[("date", JVal.time 5), ("id", JVal.str "a")]]))
        "acme" none none false none
      = Except.ok (some (LoadResult.raw
          { rows := [[("date", JVal.time 5), ("id", JVal.str "a")]],
            dateZone := some "US/Pacific" })) :=
  write_then_load_roundtrip (fun _ => none)
    [[("date", JVal.time 5), ("id", JVal.str "a")]] "acme" none none none
    (List.cons_ne_nil _ _)
    (fun r hr => by
      rw [List.mem_singleton] at hr
      subst hr
      exact ⟨5, rfl⟩)

/-- C8: a cache file loading to a non-empty record set is re-parsed with
its timestamps interpreted as UTC instants and re-expressed in the
US/Pacific display zone; with the flag unset the raw tabular record set
is returned, with the flag set a wrapped handle carrying the
owner/project identity is returned. -/
theorem load_nonempty_pacific_and_handler (fs : FS) (u : String)
    (p dh b : Option String) (rows : List Record)
    (hfs : fs (load_filepath (get_data_home dh) u p b)
      = some (FileContent.valid rows))
    (hne : rows ≠ [])
    (hd : ∀ r ∈ rows, ∃ n : Int, Record.get r "date" = some (JVal.time n)) :
    load_commits fs u p dh false b
      = Except.ok (some (LoadResult.raw
          { rows := rows, dateZone := some "US/Pacific" })) ∧
    load_commits fs u p dh true b
      = Except.ok (some (LoadResult.handler u p
          { rows := rows, dateZone := some "US/Pacific" })) := by
  constructor
  · simpa using load_commits_valid fs u p dh b false rows hfs hne hd
  · simpa using load_commits_valid fs u p dh b true rows hfs hne hd

/-- C8, witness: a concrete non-empty cache read with the handler flag. -/
theorem load_nonempty_pacific_and_handler_witness :
    load_commits c8_fs "acme" none none true none
      = Except.ok (some (LoadResult.handler "acme" none
          { rows := [[("date", JVal.time 5), ("id", JVal.str "a")]],
            dateZone := some "US/Pacific" })) :=
  (load_nonempty_pacific_and_handler c8_fs "acme" none none none
      [[("date", JVal.time 5), ("id", JVal.str "a")]] rfl
      (List.cons_ne_nil _ _)
      (fun r hr => by
        rw [List.mem_singleton] at hr
        subst hr
        exact ⟨5, rfl⟩)).2

theorem extract_commit_dates_ok (rows : List Record) (ds : List JVal)
    (h : extract_commit_dates rows = Except.ok ds) :
    ds.length = rows.length ∧
    ∀ i (h1 : i < ds.length) (h2 : i < rows.length),
      commit_author_date (rows.get ⟨i, h2⟩) = some (ds.get ⟨i, h1⟩) := by
  induction rows generalizing ds with
  | nil =>
    simp only [extract_commit_dates, mapExcept] at h
    cases h
    exact ⟨rfl, fun i h1 h2 => absurd h1 (by simp)⟩
  | cons r t ih =>
    simp only [extract_commit_dates, mapExcept] at h
    cases hv : commit_author_date r with
    | none => rw [hv] at h; simp at h
    | some v =>
      rw [hv] at h
      cases ht : mapExcept (fun r => match commit_author_date r with
          | some v => Except.ok v
          | none => Except.error ExcKind.keyError) t with
      | error e => rw [ht] at h; simp at h
      | ok bs =>
        rw [ht] at h
        simp only [Except.ok.injEq] at h
        subst h
        obtain ⟨hlen, hidx⟩ := ih bs (by simpa [extract_commit_dates] using ht)
        refine ⟨by simp [hlen], ?_⟩
        intro i h1 h2
        cases i with
        | zero => simpa using hv
        | succ j =>
          have hj1 : j < bs.length := by simpa using h1
          have hj2 : j < t.length := by simpa using h2
          simpa using hidx j hj1 hj2

/-- C6: normalization gives every fetched record the canonical `date`
field — with project absent the creation-timestamp field `created_at` is
renamed to `date` (so the `date` lookup yields the old `created_at`
value), and with project present the nested author timestamp is extracted
from each record's embedded commit metadata into the `date` field. -/
theorem normalize_dates_spec (rows out : List Record) (proj : String) :
    (normalize_dates none rows = Except.ok out →
       out = rows.map (fun r => Record.renameKey r "created_at" "date") ∧
       ∀ r ∈ rows, Record.get r "date" = none →
         Record.get (Record.renameKey r "created_at" "date") "date"
           = Record.get r "created_at") ∧
    (normalize_dates (some proj) rows = Except.ok out →
       out.length = rows.length ∧
       ∀ i (h1 : i < out.length) (h2 : i < rows.length),
         Record.get (out.get ⟨i, h1⟩) "date"
           = commit_author_date (rows.get ⟨i, h2⟩)) := by
  constructor
  · intro h
    refine ⟨?_, ?_⟩
    · simp only [normalize_dates, Except.ok.injEq] at h
      exact h.symm
    · intro r hr hd0
      exact Record.get_renameKey r _ _ hd0
  · intro h
    cases hx : extract_commit_dates rows with
    | error e =>
      rw [normalize_dates, hx] at h
      simp at h
    | ok ds =>
      rw [normalize_dates, hx] at h
      simp only [Except.ok.injEq] at h
      subst h
      obtain ⟨hlen, hidx⟩ := extract_commit_dates_ok rows ds hx
      constructor
      · simp [List.length_zipWith, hlen]
      · intro i h1 h2
        have hd1 : i < ds.length := by
          simp only [List.length_zipWith] at h1
          omega
        have hget : (List.zipWith (fun r v => Record.set r "date" v)
            rows ds).get ⟨i, h1⟩
            = Record.set (rows.get ⟨i, h2⟩) "date" (ds.get ⟨i, hd1⟩) := by
          simp [List.get_eq_getElem, List.getElem_zipWith]
        rw [hget, Record.get_set, hidx i hd1 h2]

/-- C6, witness: the rename branch at a concrete record list. -/
theorem normalize_dates_spec_witness :
    ([c2_n1, c2_n2] : List Record)
      = [c2_r1, c2_r2].map (fun r => Record.renameKey r "created_at" "date") :=
  ((normalize_dates_spec [c2_r1, c2_r2] [c2_n1, c2_n2] "w").1 rfl).1

/-- C10: whatever `OSError` the directory-creation call raises — the
already-exists condition, permission denied, or any other kind — the
updater behaves exactly as in the no-error case, and on the write path it
still proceeds to write the cache file. -/
theorem update_oserror_suppressed (fs : FS) (fetched : List Record)
    (u auth : String) (p dh b : Option String) (e : OSErr) :
    update_commits fs fetched u p auth dh b (some e)
      = update_commits fs fetched u p auth dh b none ∧
    (∀ (normd : List Record) (o : Option LoadResult), fetched ≠ [] →
       normalize_dates p fetched = Except.ok normd →
       load_commits fs u p dh false b = Except.ok o →
       (writtenFile (update_commits fs fetched u p auth dh b (some e))
          (update_filename (get_data_home dh) u p b)).isSome = true) := by
  refine ⟨rfl, ?_⟩
  intro normd o hne hn hold
  rw [writtenFile, update_commits_reaches_write fs fetched normd o u auth
    p dh b (some e) hne hn hold]
  simp [write_fs]

/-- C10, witness: a permission-denied failure of the directory creation
is suppressed and the cache file is still written. -/
theorem update_oserror_suppressed_witness :
    (writtenFile (update_commits (fun _ => none) [c2_r1, c2_r2] "acme" none
        "" none none (some OSErr.permissionDenied))
        (update_filename (get_data_home none) "acme" none none)).isSome
      = true :=
  (update_oserror_suppressed (fun _ => none) [c2_r1, c2_r2] "acme" "" none
      none none OSErr.permissionDenied).2 [c2_n1, c2_n2] none
      (List.cons_ne_nil _ _) rfl rfl
